import Mathlib

/-!
Shallow embedding of the job-hunter matching/scoring core:
  * `src/scrapers/base.py` — the `Job` record,
  * `src/matcher/profile.py` — the `CVProfile` record and `get_skills_text`,
  * `src/config.py` — scoring weights, location table, thresholds, salary policy,
  * `src/matcher/scorer.py` — `JobScorer`: sub-scores, composite score, salary
    extraction, salary policy, `score_jobs`, `filter_matches`,
  * `src/main.py` (`cmd_match`) — the descending stable sort of the survivors.

Python strings are modelled as `String`/`List Char` (ASCII semantics: `str.lower`,
`\d`, `\s` are modelled on the ASCII range, which covers every string the scored
records contain).  Python `re` scanning is modelled by a small backtracking
regular-expression engine (`RE`, `mrun`, `findAll`) with Python's leftmost /
alternation-order / greedy semantics; the six salary patterns and the years
pattern of `scorer.py` are transcribed as `RE` values.  Python floats are
modelled as `ℚ`; `round(x, 1)` and the `:,.0f` format use round-half-even
(`roundHE`).  The sklearn TF-IDF vectorizer is third-party code: the fitted
model is an abstract field `Scorer.sim` (a cosine similarity in `[0,1]` when it
succeeds), and vocabulary fitting is modelled only where a claim needs it.
-/

namespace JobHunter

/-! ## Data model: Job (src/scrapers/base.py) and CVProfile (src/matcher/profile.py) -/

/-- The `Job` dataclass of `src/scrapers/base.py`.  Mandatory `str` fields are
`String`, `Optional[str]` fields are `Option String`, the optional score is
`Option ℚ`. -/
structure Job where
  id : String
  title : String
  organization : String
  location : String
  description : String
  url : String
  source : String
  posted_date : Option String := none
  deadline : Option String := none
  salary : Option String := none
  job_type : Option String := none
  experience_required : Option String := none
  scraped_at : String := ""
  score : Option ℚ := none
  cover_letter_path : Option String := none
deriving DecidableEq

/-- The `CVProfile` dataclass of `src/matcher/profile.py`. -/
structure CVProfile where
  name : String := ""
  target_roles : List String := []
  target_locations : List String := []
  years_experience : ℤ := 0
  skills : List String := []
  certifications : List String := []
  languages : List String := []
  sectors : List String := []
  organizations_worked : List String := []
  donors_experience : List String := []
  keywords_boost : List String := []
deriving DecidableEq

/-- `CVProfile.get_skills_text`: skills, sectors, donors, "<role> experience"
for each target role, keyword boosts, joined by single spaces. -/
def skillsText (p : CVProfile) : String :=
  String.intercalate " "
    (p.skills ++ p.sectors ++ p.donors_experience ++
      p.target_roles.map (fun r => r ++ " experience") ++ p.keywords_boost)

/-! ## Configuration constants (src/config.py) -/

def SCORE_THRESHOLD_HIGH : ℚ := 70
def SCORE_THRESHOLD_LOW : ℚ := 50
def MIN_SALARY_USD : ℚ := 3000
def EXCLUDE_NO_SALARY : Bool := false

def wTitle : ℚ := 0.30
def wLocation : ℚ := 0.20
def wSkills : ℚ := 0.25
def wExperience : ℚ := 0.15
def wDonor : ℚ := 0.10

/-- `LOCATION_SCORES` of `src/config.py`; a Python 3.7+ dict iterates in
insertion order, so it is an ordered association list here. -/
def LOCATION_SCORES : List (String × ℚ) :=
  [("ethiopia", 100), ("addis ababa", 100), ("kenya", 90), ("nairobi", 90),
   ("east africa", 80), ("africa", 70), ("remote", 70), ("global", 60)]

/-! ## String utilities (ASCII model of the Python `str` operations used) -/

/-- ASCII model of `str.lower` (per character). -/
def toLowerL (l : List Char) : List Char := l.map Char.toLower

/-- ASCII decimal digits, the characters matched by `\d` on these inputs. -/
def isDigitC (c : Char) : Bool :=
  c == '0' || c == '1' || c == '2' || c == '3' || c == '4' ||
  c == '5' || c == '6' || c == '7' || c == '8' || c == '9'

/-- Characters of the `[\d,]` class. -/
def isDigitCommaC (c : Char) : Bool := isDigitC c || c == ','

/-- ASCII whitespace, the characters matched by `\s` and split on by
`str.split()`. -/
def isWsC (c : Char) : Bool :=
  c == ' ' || c == '\t' || c == '\n' || c == '\r' || c == '\x0b' || c == '\x0c'

/-- Is `small` a prefix of `big`? -/
def isPrefixL : List Char → List Char → Bool
  | [], _ => true
  | _ :: _, [] => false
  | a :: as, b :: bs => a == b && isPrefixL as bs

/-- Python's substring test `needle in hay`. -/
def containsL (hay needle : List Char) : Bool :=
  match hay with
  | [] => needle.isEmpty
  | _ :: t => isPrefixL needle hay || containsL t needle

/-- Python's `str.split()`: split on whitespace runs, dropping empty pieces. -/
def splitWsAux : List Char → List Char → List (List Char)
  | [], acc => if acc.isEmpty then [] else [acc.reverse]
  | c :: cs, acc =>
    if isWsC c then
      if acc.isEmpty then splitWsAux cs [] else acc.reverse :: splitWsAux cs []
    else splitWsAux cs (c :: acc)

def splitWs (l : List Char) : List (List Char) := splitWsAux l []

/-! ## A small backtracking regex engine with Python `re` semantics

Alternation is tried left to right, `?` and `*` are greedy with per-character
backtracking, matching is leftmost (the scanner in `findAll` tries successive
start positions).  `grp` is the single capturing group each pattern of
`scorer.py` contains; its captured text is recovered from the number of
characters the sub-pattern consumed. -/

inductive RE where
  | eps : RE
  | cls : (Char → Bool) → RE
  | cat : RE → RE → RE
  | alt : RE → RE → RE
  | opt : RE → RE
  | star : (Char → Bool) → RE
  | grp : RE → RE

/-- Literal word: one `cls` per character. -/
def litL : List Char → RE
  | [] => .eps
  | c :: cs => .cat (.cls (fun x => x == c)) (litL cs)

/-- Greedy Kleene star over a character class: consume as much as possible,
backtracking one character at a time. -/
def starRun (f : Char → Bool) : List Char → (List Char → Option α) → Option α
  | [], k => k []
  | c :: t, k => if f c then (starRun f t k) <|> k (c :: t) else k (c :: t)

/-- Run pattern `e` at the head of `s` in continuation-passing style.  `cap` is
the text of the capturing group once it has been traversed; `k` receives the
remaining input and the capture. -/
def mrun : RE → List Char → Option (List Char) →
    (List Char → Option (List Char) → Option α) → Option α
  | .eps, s, cap, k => k s cap
  | .cls f, s, cap, k =>
    match s with
    | [] => none
    | c :: t => if f c then k t cap else none
  | .cat a b, s, cap, k => mrun a s cap (fun s' cap' => mrun b s' cap' k)
  | .alt a b, s, cap, k => (mrun a s cap k) <|> (mrun b s cap k)
  | .opt a, s, cap, k => (mrun a s cap k) <|> k s cap
  | .star f, s, cap, k => starRun f s (fun s' => k s' cap)
  | .grp a, s, cap, k =>
    mrun a s cap (fun s' _ => k s' (some (s.take (s.length - s'.length))))

/-- Try to match `p` at the very start of `s`; on success return the captured
group and the remaining input. -/
def matchAt (p : RE) (s : List Char) : Option (List Char × List Char) :=
  mrun p s none (fun rest cap => some (cap.getD [], rest))

/-- `re.findall` with one group: scan left to right, on a match emit the group
and resume after it (advancing one character after an empty match). -/
def findAllAux (p : RE) : Nat → List Char → List (List Char)
  | 0, _ => []
  | fuel + 1, s =>
    match matchAt p s with
    | some (cap, rest) =>
      if rest.length < s.length then cap :: findAllAux p fuel rest
      else cap :: (match s with | [] => [] | _ :: t => findAllAux p fuel t)
    | none => match s with | [] => [] | _ :: t => findAllAux p fuel t

def findAll (p : RE) (s : List Char) : List (List Char) :=
  findAllAux p (s.length + 1) s

/-! ## Number parsing and formatting (Python `float`, `:,.0f`, `round`) -/

def digitVal (c : Char) : ℕ := c.toNat - 48

/-- Value of a most-significant-first digit string. -/
def parseNatL (l : List Char) : ℕ :=
  l.foldl (fun a c => a * 10 + digitVal c) 0

def stripCommas (l : List Char) : List Char := l.filter (fun c => c ≠ ',')

/-- Python `float(...)` on the comma-stripped capture of a salary pattern
(`digits`, `digits.dd`, or `.dd`); `none` models `ValueError`. -/
def parseAmount (l : List Char) : Option ℚ :=
  let s := stripCommas l
  if s.isEmpty then none
  else
    let intPart := s.takeWhile isDigitC
    let rest := s.dropWhile isDigitC
    match rest with
    | [] => some (parseNatL intPart : ℚ)
    | '.' :: frac =>
      if frac.all isDigitC && !(intPart.isEmpty && frac.isEmpty) then
        some ((parseNatL intPart : ℚ) + (parseNatL frac : ℚ) / (10 : ℚ) ^ frac.length)
      else none
    | _ => none

/-- Round half to even, as Python `round` and `format` do.  Written with
integer arithmetic on the numerator and denominator: `fl` is `⌊q⌋` and `r` the
numerator of the fractional part, so the three branches are fraction `< 1/2`,
`> 1/2`, and the exact tie resolved to the even neighbour. -/
def roundHE (q : ℚ) : ℤ :=
  let fl : ℤ := Int.ediv q.num q.den
  let r : ℤ := q.num - fl * q.den
  if 2 * r < (q.den : ℤ) then fl
  else if (q.den : ℤ) < 2 * r then fl + 1
  else if Int.emod fl 2 = 0 then fl else fl + 1

/-- Python `round(x, 1)`. -/
def roundTenth (q : ℚ) : ℚ := (roundHE (q * 10) : ℚ) / 10

def digitChar : ℕ → Char
  | 0 => '0' | 1 => '1' | 2 => '2' | 3 => '3' | 4 => '4'
  | 5 => '5' | 6 => '6' | 7 => '7' | 8 => '8' | _ => '9'

/-- Most-significant-first decimal digits of a natural number; the fuel (any
bound above the number itself) only drives the structural recursion. -/
def natDigitsAux : ℕ → ℕ → List Char
  | 0, _ => []
  | fuel + 1, n =>
    if n < 10 then [digitChar n]
    else natDigitsAux fuel (n / 10) ++ [digitChar (n % 10)]

def natDigits (n : ℕ) : List Char := natDigitsAux (n + 1) n

/-- Insert a comma after every three characters of a reversed digit string. -/
def group3R : List Char → List Char
  | d₁ :: d₂ :: d₃ :: d₄ :: rest => d₁ :: d₂ :: d₃ :: ',' :: group3R (d₄ :: rest)
  | l => l

/-- Python `f"{n:,}"` for a natural number: thousands groups separated by
commas. -/
def commaDigits (n : ℕ) : List Char := (group3R (natDigits n).reverse).reverse

/-- The normalized salary string `f"~${salary:,.0f}/month"` written by
`_meets_salary_requirement` (extracted amounts are positive, so the sign never
appears). -/
def normalizeSalary (v : ℚ) : String :=
  "~$" ++ String.mk (commaDigits (roundHE v).toNat) ++ "/month"

/-! ## The six salary regexes of `JobScorer._extract_salary` -/

def wsS : RE := .star isWsC

/-- The capturing group `([\d,]+(?:\.\d{2})?)`. -/
def amountGroup : RE :=
  .grp (.cat (.cls isDigitCommaC)
    (.cat (.star isDigitCommaC)
      (.opt (.cat (.cls (· == '.')) (.cat (.cls isDigitC) (.cls isDigitC))))))

/-- `(?:per\s*month|/\s*month|monthly|p\.?m\.?)?` -/
def monthOpt : RE :=
  .opt (.alt (.cat (litL ['p', 'e', 'r']) (.cat wsS (litL ['m', 'o', 'n', 't', 'h'])))
    (.alt (.cat (.cls (· == '/')) (.cat wsS (litL ['m', 'o', 'n', 't', 'h'])))
      (.alt (litL ['m', 'o', 'n', 't', 'h', 'l', 'y'])
        (.cat (.cls (· == 'p'))
          (.cat (.opt (.cls (· == '.')))
            (.cat (.cls (· == 'm')) (.opt (.cls (· == '.')))))))))

/-- `(?:year|annum)` -/
def yearAnnum : RE :=
  .alt (litL ['y', 'e', 'a', 'r']) (litL ['a', 'n', 'n', 'u', 'm'])

/-- `(?:per\s*(?:year|annum)|/\s*(?:year|annum)|annually|p\.?a\.?)` -/
def annualReq : RE :=
  .alt (.cat (litL ['p', 'e', 'r']) (.cat wsS yearAnnum))
    (.alt (.cat (.cls (· == '/')) (.cat wsS yearAnnum))
      (.alt (litL ['a', 'n', 'n', 'u', 'a', 'l', 'l', 'y'])
        (.cat (.cls (· == 'p'))
          (.cat (.opt (.cls (· == '.')))
            (.cat (.cls (· == 'a')) (.opt (.cls (· == '.'))))))))

/-- `(?:\$|usd)` -/
def usdPre : RE := .alt (.cls (· == '$')) (litL ['u', 's', 'd'])

/-- `(?:usd|dollars?)` -/
def usdSuf : RE :=
  .alt (litL ['u', 's', 'd'])
    (.cat (litL ['d', 'o', 'l', 'l', 'a', 'r']) (.opt (.cls (· == 's'))))

/-- `(?:€|eur)` -/
def eurPre : RE := .alt (.cls (· == '€')) (litL ['e', 'u', 'r'])

/-- `(?:eur|euros?)` -/
def eurSuf : RE :=
  .alt (litL ['e', 'u', 'r'])
    (.cat (litL ['e', 'u', 'r', 'o']) (.opt (.cls (· == 's'))))

def pat0 : RE := .cat usdPre (.cat wsS (.cat amountGroup (.cat wsS monthOpt)))
def pat1 : RE := .cat amountGroup (.cat wsS (.cat usdSuf (.cat wsS monthOpt)))
def pat2 : RE := .cat eurPre (.cat wsS (.cat amountGroup (.cat wsS monthOpt)))
def pat3 : RE := .cat amountGroup (.cat wsS (.cat eurSuf (.cat wsS monthOpt)))
def pat4 : RE := .cat usdPre (.cat wsS (.cat amountGroup (.cat wsS annualReq)))
def pat5 : RE := .cat amountGroup (.cat wsS (.cat usdSuf (.cat wsS annualReq)))

/-- The ordered pattern list with its EUR flag (`i in [2, 3]`) and annual flag
(`i in [4, 5]`). -/
def salaryPatterns : List (RE × Bool × Bool) :=
  [(pat0, false, false), (pat1, false, false), (pat2, true, false),
   (pat3, true, false), (pat4, false, true), (pat5, false, true)]

/-! ## Salary extraction and policy (`_extract_salary`, `_meets_salary_requirement`) -/

/-- The per-match numeric adjustment of `_extract_salary`: EUR amounts are
multiplied by 1.1, then the amount is divided by 12 when the pattern was an
annual one or the (converted) amount exceeds 20000. -/
def adjustAmount (isEur isAnnual : Bool) (amount : ℚ) : ℚ :=
  let a := if isEur then amount * 1.1 else amount
  if isAnnual || a > 20000 then a / 12 else a

/-- Handle one regex match: parse (a `ValueError` continues the scan), adjust,
and accept when the result lies in the sane monthly band 500–50000. -/
def processMatch (isEur isAnnual : Bool) (cap : List Char) : Option ℚ :=
  match parseAmount cap with
  | none => none
  | some raw =>
    let a := adjustAmount isEur isAnnual raw
    if 500 ≤ a ∧ a ≤ 50000 then some a else none

/-- `_extract_salary` on the already lowercased text: first accepted match of
the first pattern that yields one. -/
def extractSalaryL (text : List Char) : Option ℚ :=
  salaryPatterns.findSome?
    (fun pe => (findAll pe.1 text).findSome? (processMatch pe.2.1 pe.2.2))

/-- The text `f"{job.salary or ''} {job.description or ''}".lower()`. -/
def jobSalaryText (j : Job) : List Char :=
  toLowerL ((j.salary.getD "").toList ++ ' ' :: j.description.toList)

def extractSalary (j : Job) : Option ℚ := extractSalaryL (jobSalaryText j)

/-- `_meets_salary_requirement`: when a salary is extracted the job's salary
field is rewritten to the normalized form and the verdict compares it with the
configured minimum; with no extractable salary the job is untouched and passes
unless `EXCLUDE_NO_SALARY`. -/
def meetsSalaryRequirement (j : Job) : Bool × Job :=
  match extractSalary j with
  | some v => (decide (MIN_SALARY_USD ≤ v), { j with salary := some (normalizeSalary v) })
  | none => (!EXCLUDE_NO_SALARY, j)

/-! ## The five sub-scores (`JobScorer._score_*`) -/

/-- The leadership indicator terms of `_score_title_match`. -/
def leadershipTerms : List String :=
  ["director", "head", "chief", "lead", "senior", "manager"]

/-- The role loop of `_score_title_match`: exact substring returns 100
immediately (skipping the leadership floor); all-words raises the best to 90;
otherwise a positive word count raises it to `(matching/total) * 80`.  After
the loop the leadership terms floor the running best at 50. -/
def scoreTitleAux (tl : List Char) : List String → ℚ → ℚ
  | [], best =>
    if leadershipTerms.any (fun t => containsL tl t.toList) then max best 50 else best
  | r :: rs, best =>
    let rl := toLowerL r.toList
    if containsL tl rl then 100
    else
      let ws := splitWs rl
      if ws.all (fun w => containsL tl w) then scoreTitleAux tl rs (max best 90)
      else
        let m := (ws.filter (fun w => containsL tl w)).length
        if 0 < m then scoreTitleAux tl rs (max best ((m : ℚ) / (ws.length : ℚ) * 80))
        else scoreTitleAux tl rs best

def scoreTitleMatch (p : CVProfile) (title : String) : ℚ :=
  scoreTitleAux (toLowerL title.toList) p.target_roles 0

/-- `_score_location_match`: empty location is neutral 40; else the first
matching `LOCATION_SCORES` entry wins; else a target-location substring gives
90; else 30. -/
def scoreLocationMatch (p : CVProfile) (location : String) : ℚ :=
  if location = "" then 40
  else
    let ll := toLowerL location.toList
    match LOCATION_SCORES.findSome?
        (fun e => if containsL ll e.1.toList then some e.2 else none) with
    | some sc => sc
    | none =>
      if p.target_locations.any (fun t => containsL ll (toLowerL t.toList)) then 90
      else 30

/-- The `(\d+)\+?\s*(?:years?|yrs?)` pattern of `_score_experience_fit`. -/
def yearsRE : RE :=
  .cat (.grp (.cat (.cls isDigitC) (.star isDigitC)))
    (.cat (.opt (.cls (· == '+')))
      (.cat (.star isWsC)
        (.alt (.cat (litL ['y', 'e', 'a', 'r']) (.opt (.cls (· == 's'))))
          (.cat (litL ['y', 'r']) (.opt (.cls (· == 's')))))))

/-- `_score_experience_fit` on the concatenation of the experience-required
field and the description. -/
def scoreExperienceFit (expReq : Option String) (desc : String) (myYears : ℤ) : ℚ :=
  let text := toLowerL ((expReq.getD "").toList ++ ' ' :: desc.toList)
  let ms := findAll yearsRE text
  if ms.isEmpty then 70
  else
    let req : List ℕ := ms.map parseNatL
    let minY : ℤ := match req with | [] => 0 | h :: t => (t.foldl min h : ℕ)
    let maxY : ℤ := match req with | [] => 100 | h :: t => (t.foldl max h : ℕ)
    if minY ≤ myYears ∧ myYears ≤ maxY + 2 then 100
    else if minY - 2 ≤ myYears then 80
    else if myYears < minY - 2 then 40
    else 60

/-- `_score_donor_match` over `f"{description} {organization}".lower()`. -/
def scoreDonorMatch (p : CVProfile) (desc org : String) : ℚ :=
  let text := toLowerL (desc.toList ++ ' ' :: org.toList)
  let matched := (p.donors_experience.filter (fun d => containsL text (toLowerL d.toList))).length
  if 2 ≤ matched then 100 else if matched = 1 then 70 else 30

/-! ## The scorer -/

/-- A `JobScorer` after construction: the profile, and the fitted TF-IDF
model abstracted as the cosine-similarity function it induces on job
descriptions (`Except` models a raised exception inside vectorization). -/
structure Scorer where
  profile : CVProfile
  sim : String → Except String ℚ

/-- `_score_skills_overlap`: empty description is neutral 30, a vectorization
failure degrades to 30, otherwise `min(100, similarity * 150)`. -/
def scoreSkillsOverlap (s : Scorer) (desc : String) : ℚ :=
  if desc = "" then 30
  else
    match s.sim desc with
    | .error _ => 30
    | .ok v => min 100 (v * 150)

/-- Modelled from the spec: the sklearn `TfidfVectorizer` used by
`JobScorer._fit_vectorizer` is third-party code.  Its default tokenizer keeps
maximal alphanumeric/underscore runs of length at least two; fitting raises
`ValueError` when the resulting vocabulary is empty (stop-word removal, which
could only shrink the vocabulary further, is omitted — the claims evaluate
this model only on profiles producing no tokens at all). -/
def tfidfTokens (s : String) : List (List Char) :=
  (splitWsAux (s.toList.map (fun c =>
      if c.isAlpha || isDigitC c || c = '_' then c else ' ')) []).filter
    (fun w => 2 ≤ w.length)

/-- `JobScorer.__init__` / `_fit_vectorizer`: fitting the vectorizer on the
profile text happens outside any exception handler, so an empty vocabulary
raises out of the constructor. -/
def mkScorer (p : CVProfile) (sim : String → Except String ℚ) : Except String Scorer :=
  if (tfidfTokens (skillsText p)).isEmpty then .error "empty vocabulary"
  else .ok ⟨p, sim⟩

/-- `JobScorer.score_job`: the weighted blend of the five sub-scores, rounded
to one decimal place. -/
def scoreJob (s : Scorer) (j : Job) : ℚ :=
  let t := scoreTitleMatch s.profile j.title
  let l := scoreLocationMatch s.profile j.location
  let sk := scoreSkillsOverlap s j.description
  let e := scoreExperienceFit j.experience_required j.description s.profile.years_experience
  let d := scoreDonorMatch s.profile j.description j.organization
  roundTenth (t * wTitle + l * wLocation + sk * wSkills + e * wExperience + d * wDonor)

/-- `JobScorer.score_jobs`: attach a score to every job, in order. -/
def scoreJobs (s : Scorer) : List Job → List Job
  | [] => []
  | j :: rest => { j with score := some (scoreJob s j) } :: scoreJobs s rest

/-! ## Filtering and ranking (`filter_matches` + the sort in `cmd_match`) -/

/-- `job.score or 0`, the key used by both the threshold test and the sort. -/
def jobKey (j : Job) : ℚ := j.score.getD 0

def filterMatchesGo (ms : ℚ) : List Job → List Job
  | [] => []
  | j :: rest =>
    if jobKey j < ms then filterMatchesGo ms rest
    else
      match meetsSalaryRequirement j with
      | (true, j') => j' :: filterMatchesGo ms rest
      | (false, _) => filterMatchesGo ms rest

/-- `JobScorer.filter_matches`; `min_score or config.SCORE_THRESHOLD_LOW`
treats both `None` and `0` as absent. -/
def filterMatches (minScore : Option ℚ) (jobs : List Job) : List Job :=
  filterMatchesGo
    (match minScore with
     | none => SCORE_THRESHOLD_LOW
     | some v => if v = 0 then SCORE_THRESHOLD_LOW else v) jobs

/-- The comparison of the stable descending sort
`matches.sort(key=lambda j: j.score or 0, reverse=True)` in `cmd_match`:
`a` may precede `b` iff `b`'s key does not exceed `a`'s. -/
def keyGE (a b : Job) : Prop := jobKey b ≤ jobKey a

instance : DecidableRel keyGE := fun a b => inferInstanceAs (Decidable (_ ≤ _))

instance : IsTotal Job keyGE := ⟨fun a b => le_total (jobKey b) (jobKey a)⟩

instance : IsTrans Job keyGE := ⟨fun _ _ _ hab hbc => le_trans hbc hab⟩

/-- Python's `list.sort(..., reverse=True)` is a stable descending sort; any
stable sort computes the same list, so it is modelled by insertion sort with
the `keyGE` comparison. -/
def sortByScoreDesc (jobs : List Job) : List Job := jobs.insertionSort keyGE

/-- The filter-and-rank pipeline of `cmd_match` (src/main.py): drop
low-scoring jobs and salary failures, then sort the survivors by descending
score. -/
def filterAndRank (jobs : List Job) : List Job :=
  sortByScoreDesc (filterMatches none jobs)

/-! ## Concrete sample inputs used by witnesses and counterexamples -/

/-- The profile of the spec's end-to-end scenario. -/
def profileC1 : CVProfile := { target_roles := ["Program Director"], years_experience := 8 }

/-- A similarity oracle standing for a fitted model; the sample jobs have
empty descriptions, so it is never consulted. -/
def simNever : String → Except String ℚ := fun _ => .error "unused"

def scorerC1 : Scorer := ⟨profileC1, simNever⟩

/-- The job of the spec's end-to-end scenario. -/
def jobC1 : Job :=
  { id := "c1", title := "Senior Program Director - East Africa", organization := "",
    location := "Nairobi, Kenya", description := "", url := "", source := "",
    experience_required := some "5-10 years" }

/-- A profile whose string sequences are all empty (the degenerate case of the
error-handling claim). -/
def emptyProfile : CVProfile := {}

def jobMonthly : Job :=
  { id := "m", title := "t", organization := "o", location := "l", description := "",
    url := "u", source := "s", salary := some "$5,000 per month", score := some 80 }

def jobAnnual : Job :=
  { id := "a", title := "t", organization := "o", location := "l", description := "",
    url := "u", source := "s", salary := some "$60,000 per year", score := some 80 }

def jobNoSalary : Job :=
  { id := "n", title := "t", organization := "o", location := "l", description := "",
    url := "u", source := "s", salary := some "competitive salary", score := some 80 }

/-- A high earner: monthly equivalent 25000 survives the first filtering pass
but its normalized form re-triggers the annual heuristic on the second. -/
def jobBigSalary : Job :=
  { id := "b", title := "t", organization := "o", location := "l", description := "",
    url := "u", source := "s", salary := some "$300,000 per year", score := some 80 }

/-- The high earner after the first pass has rewritten its salary. -/
def jobBigRewritten : Job := { jobBigSalary with salary := some "~$25,000/month" }

/-- Decidable form of "any extracted salary is at most 20000", the hypothesis
of the amended idempotence claim. -/
def salaryCapOK (j : Job) : Bool :=
  match extractSalary j with
  | some v => decide (v ≤ 20000)
  | none => true

/-- All fields other than `salary` agree (the frame of the salary step). -/
def jobEqExceptSalary (j' j : Job) : Prop :=
  j'.id = j.id ∧ j'.title = j.title ∧ j'.organization = j.organization ∧
  j'.location = j.location ∧ j'.description = j.description ∧ j'.url = j.url ∧
  j'.source = j.source ∧ j'.posted_date = j.posted_date ∧ j'.deadline = j.deadline ∧
  j'.job_type = j.job_type ∧ j'.experience_required = j.experience_required ∧
  j'.scraped_at = j.scraped_at ∧ j'.score = j.score ∧
  j'.cover_letter_path = j.cover_letter_path

/-! # Theorems -/

/-- Helper: the experience sub-score only ever takes the values 40, 70, 80 and
100; the trailing 60 branch is dead because its guard is the exact negation of
the previous branch's guard. -/
theorem scoreExperienceFit_cases (expReq : Option String) (desc : String) (my : ℤ) :
    scoreExperienceFit expReq desc my = 40 ∨ scoreExperienceFit expReq desc my = 70 ∨
      scoreExperienceFit expReq desc my = 80 ∨ scoreExperienceFit expReq desc my = 100 := by
  simp only [scoreExperienceFit]
  split_ifs with h1 h2 h3 h4
  · exact Or.inr (Or.inl rfl)
  · exact Or.inr (Or.inr (Or.inr rfl))
  · exact Or.inr (Or.inr (Or.inl rfl))
  · exact Or.inl rfl
  · exfalso; omega

/-- C10: for every job and profile the experience-fit sub-score is one of
40, 70, 80, 100; when year mentions are found the comparisons against
`min − 2` are exhaustive, so the 60 catch-all branch is unreachable. -/
theorem c10_experience_values :
    ∀ (expReq : Option String) (desc : String) (my : ℤ),
      scoreExperienceFit expReq desc my = 40 ∨ scoreExperienceFit expReq desc my = 70 ∨
        scoreExperienceFit expReq desc my = 80 ∨ scoreExperienceFit expReq desc my = 100 :=
  fun expReq desc my => scoreExperienceFit_cases expReq desc my

/-- Helper: `score_jobs` is the order-preserving map that only sets `score`. -/
theorem scoreJobs_eq_map (s : Scorer) (l : List Job) :
    scoreJobs s l = l.map (fun j => { j with score := some (scoreJob s j) }) := by
  induction l with
  | nil => rfl
  | cons j rest ih => simp [scoreJobs, ih]

/-- C9: scoring is deterministic — two calls of `score_job` on identical
inputs give the identical rational (the embedding is a pure function of the
job and the fitted scorer), and the score a job receives inside `score_jobs`
does not depend on the other jobs in the collection or on its position. -/
theorem c9_deterministic :
    (∀ (s : Scorer) (j : Job), scoreJob s j = scoreJob s j) ∧
    ∀ (s : Scorer) (pre post : List Job) (j : Job),
      (scoreJobs s (pre ++ j :: post)).get? pre.length =
        some { j with score := some (scoreJob s j) } := by
  refine ⟨fun _ _ => rfl, ?_⟩
  intro s pre post j
  induction pre with
  | nil => rfl
  | cons p pre ih => simpa [scoreJobs] using ih

/-- Helper: rounding an integer changes nothing. -/
theorem roundHE_intCast (n : ℤ) : roundHE ((n : ℤ) : ℚ) = n := by
  have h1 : Int.ediv n 1 = n := Int.ediv_one n
  simp [roundHE, Rat.num_intCast, Rat.den_intCast, h1]

/-- Helper: rewriting `roundHE` at a value known to be an integer. -/
theorem roundHE_eq_of_int (q : ℚ) (n : ℤ) (h : q = (n : ℚ)) : roundHE q = n :=
  h ▸ roundHE_intCast n

/-- Helper: an extraction that already succeeds on the first match of the
first (USD) pattern. -/
theorem extractSalaryL_pat0 {text cap : List Char} {tail : List (List Char)} {v : ℚ}
    (hf : findAll pat0 text = cap :: tail) (hp : processMatch false false cap = some v) :
    extractSalaryL text = some v := by
  simp [extractSalaryL, salaryPatterns, List.findSome?, hf, hp]

/-- Helper: an extraction whose first accepted match comes from the first EUR
pattern, the two USD patterns having produced no match at all. -/
theorem extractSalaryL_pat2 {text cap : List Char} {tail : List (List Char)} {v : ℚ}
    (h0 : findAll pat0 text = []) (h1 : findAll pat1 text = [])
    (hf : findAll pat2 text = cap :: tail) (hp : processMatch true false cap = some v) :
    extractSalaryL text = some v := by
  simp [extractSalaryL, salaryPatterns, List.findSome?, h0, h1, hf, hp]

/-- Helper: the annual example parses to 60000, exceeds the 20000 heuristic,
and is divided down to the monthly 5000. -/
theorem extractSalary_jobAnnual : extractSalary jobAnnual = some 5000 := by
  have hf : findAll pat0 (jobSalaryText jobAnnual) = [['6', '0', ',', '0', '0', '0']] := by
    decide
  have hpa : parseAmount ['6', '0', ',', '0', '0', '0'] = some 60000 := by decide
  have hp : processMatch false false ['6', '0', ',', '0', '0', '0'] = some 5000 := by
    simp only [processMatch, hpa]
    norm_num [adjustAmount]
  exact extractSalaryL_pat0 hf hp

/-- C3: salary extraction round-trip — `"$5,000 per month"` yields a monthly
5000, `"$60,000 per year"` converts to a monthly 5000, and text with no
numeric/currency pattern yields no salary. -/
theorem c3_salary_roundtrip :
    extractSalary jobMonthly = some 5000 ∧ extractSalary jobAnnual = some 5000 ∧
      extractSalary jobNoSalary = none := by
  refine ⟨by decide, extractSalary_jobAnnual, by decide⟩

/-- Helper: the composite score of the end-to-end scenario is 70.5. -/
theorem scoreJob_c1_eq : scoreJob scorerC1 jobC1 = 70.5 := by
  have ht : scoreTitleMatch scorerC1.profile jobC1.title = 100 := by decide
  have hl : scoreLocationMatch scorerC1.profile jobC1.location = 90 := by decide
  have hs : scoreSkillsOverlap scorerC1 jobC1.description = 30 := by decide
  have he : scoreExperienceFit jobC1.experience_required jobC1.description
      scorerC1.profile.years_experience = 80 := by decide
  have hd : scoreDonorMatch scorerC1.profile jobC1.description jobC1.organization = 30 := by
    decide
  simp only [scoreJob, ht, hl, hs, he, hd, roundTenth]
  rw [roundHE_eq_of_int _ 705 (by norm_num [wTitle, wLocation, wSkills, wExperience, wDonor])]
  norm_num

/-- C1 fails on the code: the years regex requires the digits to be directly
followed by a year token, so `"5-10 years"` yields only the mention `10`; with
8 years of experience the job falls in the `min − 2` band, the experience
sub-score is 80 (not 100) and the composite is 70.5 (not 73.5). -/
theorem c1_scenario_counterexample :
    scoreExperienceFit jobC1.experience_required jobC1.description
        profileC1.years_experience ≠ 100 ∧
      scoreJob scorerC1 jobC1 ≠ 73.5 := by
  refine ⟨by decide, by rw [scoreJob_c1_eq]; norm_num⟩

/-- C1 (amended): in the end-to-end scenario the sub-scores are title 100,
location 90, skills 30, experience 80 and donor 30, and the composite score is
70.5. -/
theorem c1_scenario_amended :
    scoreTitleMatch profileC1 jobC1.title = 100 ∧
    scoreLocationMatch profileC1 jobC1.location = 90 ∧
    scoreSkillsOverlap scorerC1 jobC1.description = 30 ∧
    scoreExperienceFit jobC1.experience_required jobC1.description
      profileC1.years_experience = 80 ∧
    scoreDonorMatch profileC1 jobC1.description jobC1.organization = 30 ∧
    scoreJob scorerC1 jobC1 = 70.5 := by
  refine ⟨by decide, by decide, by decide, by decide, by decide, scoreJob_c1_eq⟩

/-- C4 identifies a real defect: `JobScorer.__init__` fits the vectorizer on
the profile text outside any exception handler, so for a profile whose string
sequences are all empty the profile text is empty, the fitted vocabulary is
empty and construction raises instead of degrading the skills sub-score
to 30. -/
theorem c4_empty_profile_construction_error :
    mkScorer emptyProfile (fun _ => .ok 0) = .error "empty vocabulary" := rfl

/-- C7 fails on the code: for a EUR match the 20000 annual-heuristic test is
applied to the amount after the 1.1 conversion, not to the raw parsed value.
At €19,000 the raw value does not exceed 20000, yet the code divides by 12. -/
theorem c7_adjustment_counterexample :
    adjustAmount true false 19000 = 19000 * 1.1 / 12 ∧
      (19000 * 1.1 / 12 : ℚ) ≠ 19000 * 1.1 ∧
      extractSalaryL ("€19,000".toList) = some (19000 * 1.1 / 12) := by
  refine ⟨by norm_num [adjustAmount], by norm_num, ?_⟩
  have h0 : findAll pat0 ("€19,000".toList) = [] := by decide
  have h1 : findAll pat1 ("€19,000".toList) = [] := by decide
  have hf : findAll pat2 ("€19,000".toList) = [['1', '9', ',', '0', '0', '0']] := by decide
  have hpa : parseAmount ['1', '9', ',', '0', '0', '0'] = some 19000 := by decide
  have hp : processMatch true false ['1', '9', ',', '0', '0', '0'] =
      some (19000 * 1.1 / 12) := by
    simp only [processMatch, hpa]
    norm_num [adjustAmount]
  exact extractSalaryL_pat2 h0 h1 hf hp

/-- C7 (amended): the divide-by-12 adjustment is applied iff the match came
from an annual pattern or the post-conversion amount (after the EUR 1.1
factor) exceeds 20000. -/
theorem c7_adjustment_amended :
    ∀ (e a : Bool) (raw : ℚ), 0 < raw →
      (adjustAmount e a raw = (if e then raw * 1.1 else raw) / 12 ↔
        (a = true ∨ (if e then raw * 1.1 else raw) > 20000)) := by
  intro e a raw hraw
  have hconv : (0 : ℚ) < (if e then raw * 1.1 else raw) := by
    cases e
    · simpa using hraw
    · simpa using mul_pos hraw (show (0 : ℚ) < 1.1 by norm_num)
  have hneq : (if e then raw * 1.1 else raw) / 12 ≠ (if e then raw * 1.1 else raw) := by
    intro h
    have h11 : (11 : ℚ) / 12 * (if e then raw * 1.1 else raw) = 0 := by linarith
    nlinarith [hconv]
  simp only [adjustAmount]
  cases a
  · simp only [Bool.false_eq_true, false_or]
    by_cases h20 : (if e then raw * 1.1 else raw) > 20000
    · rw [if_pos (by simp [h20])]
      simp [h20]
    · rw [if_neg (by simp [h20])]
      simp only [h20, iff_false]
      exact fun h => hneq h.symm
  · rw [if_pos (by simp)]
    simp

theorem c7_adjustment_amended_witness :
    adjustAmount true false 19000 = (if true then (19000 : ℚ) * 1.1 else 19000) / 12 ↔
      (false = true ∨ (if true then (19000 : ℚ) * 1.1 else 19000) > 20000) :=
  c7_adjustment_amended true false 19000 (by norm_num)

/-! ## Bounds of the sub-scores and of the composite (claim C2) -/

/-- Helper: a partial word match `(matching / total) * 80` never exceeds 80. -/
theorem wordScore_le (m L : ℕ) (hml : m ≤ L) : ((m : ℚ) / (L : ℚ)) * 80 ≤ 80 := by
  rcases Nat.eq_zero_or_pos L with h | h
  · subst h; norm_num
  · have hL : (0 : ℚ) < (L : ℚ) := by exact_mod_cast h
    have hd : (m : ℚ) / (L : ℚ) ≤ 1 := by
      rw [div_le_one hL]; exact_mod_cast hml
    nlinarith

/-- Helper: the title-match loop stays within `[0, 100]` whenever the running
best does. -/
theorem scoreTitleAux_bounds (tl : List Char) :
    ∀ (rs : List String) (best : ℚ), 0 ≤ best → best ≤ 100 →
      0 ≤ scoreTitleAux tl rs best ∧ scoreTitleAux tl rs best ≤ 100 := by
  intro rs
  induction rs with
  | nil =>
    intro best h0 h1
    simp only [scoreTitleAux]
    split_ifs
    · exact ⟨le_max_of_le_right (by norm_num), max_le h1 (by norm_num)⟩
    · exact ⟨h0, h1⟩
  | cons r rs ih =>
    intro best h0 h1
    simp only [scoreTitleAux]
    split_ifs with hx hall hm
    · norm_num
    · exact ih _ (le_max_of_le_right (by norm_num)) (max_le h1 (by norm_num))
    · exact ih _ (le_max_of_le_left h0)
        (max_le h1 (le_trans (wordScore_le _ _ (List.length_filter_le _ _)) (by norm_num)))
    · exact ih _ h0 h1

theorem scoreTitleMatch_bounds (p : CVProfile) (title : String) :
    0 ≤ scoreTitleMatch p title ∧ scoreTitleMatch p title ≤ 100 :=
  scoreTitleAux_bounds _ _ 0 le_rfl (by norm_num)

theorem scoreLocationMatch_bounds (p : CVProfile) (loc : String) :
    0 ≤ scoreLocationMatch p loc ∧ scoreLocationMatch p loc ≤ 100 := by
  simp only [scoreLocationMatch]
  by_cases h : loc = ""
  · rw [if_pos h]; norm_num
  · rw [if_neg h]
    cases hfind : LOCATION_SCORES.findSome?
        (fun e => if containsL (toLowerL loc.toList) e.1.toList then some e.2 else none) with
    | some sc =>
      dsimp only
      obtain ⟨l₁, e, l₂, hsplit, hfe, -⟩ := List.findSome?_eq_some_iff.mp hfind
      have he : e ∈ LOCATION_SCORES := by
        rw [hsplit]; exact List.mem_append_right _ (List.mem_cons_self _ _)
      have hval : ∀ x ∈ LOCATION_SCORES, 0 ≤ x.2 ∧ x.2 ≤ 100 := by decide
      have hsc : sc = e.2 := by
        by_cases hc : containsL (toLowerL loc.toList) e.1.toList
        · rw [if_pos hc] at hfe
          exact (Option.some.inj hfe).symm
        · rw [if_neg hc] at hfe
          exact absurd hfe (by simp)
      rw [hsc]
      exact hval e he
    | none =>
      dsimp only
      split_ifs <;> norm_num

theorem scoreSkillsOverlap_bounds (s : Scorer) (desc : String)
    (hsim : ∀ d v, s.sim d = .ok v → 0 ≤ v ∧ v ≤ 1) :
    0 ≤ scoreSkillsOverlap s desc ∧ scoreSkillsOverlap s desc ≤ 100 := by
  simp only [scoreSkillsOverlap]
  split_ifs
  · norm_num
  · cases h : s.sim desc with
    | error e => norm_num
    | ok v =>
      obtain ⟨h0, _⟩ := hsim _ _ h
      exact ⟨le_min (by norm_num) (mul_nonneg h0 (by norm_num)), min_le_left _ _⟩

theorem scoreExperienceFit_bounds (expReq : Option String) (desc : String) (my : ℤ) :
    0 ≤ scoreExperienceFit expReq desc my ∧ scoreExperienceFit expReq desc my ≤ 100 := by
  rcases scoreExperienceFit_cases expReq desc my with h | h | h | h <;> rw [h] <;> norm_num

theorem scoreDonorMatch_bounds (p : CVProfile) (desc org : String) :
    0 ≤ scoreDonorMatch p desc org ∧ scoreDonorMatch p desc org ≤ 100 := by
  simp only [scoreDonorMatch]
  split_ifs <;> norm_num

/-- Helper: round-half-even respects integer bounds enclosing the argument. -/
theorem roundHE_bounds {q : ℚ} {a b : ℤ} (ha : (a : ℚ) ≤ q) (hb : q ≤ (b : ℚ)) :
    a ≤ roundHE q ∧ roundHE q ≤ b := by
  have hdZ : (0 : ℤ) < (q.den : ℤ) := by exact_mod_cast q.den_pos
  have hdQ : (0 : ℚ) < ((q.den : ℕ) : ℚ) := by exact_mod_cast q.den_pos
  have hEu : (q.den : ℤ) * Int.ediv q.num q.den + Int.emod q.num q.den = q.num :=
    Int.ediv_add_emod q.num q.den
  have hr0 : 0 ≤ Int.emod q.num q.den := Int.emod_nonneg q.num (by omega)
  have hrlt : Int.emod q.num q.den < (q.den : ℤ) := Int.emod_lt_of_pos q.num hdZ
  have hnum : (q.num : ℚ) =
      ((q.den : ℕ) : ℚ) * ((Int.ediv q.num q.den : ℤ) : ℚ) +
        ((Int.emod q.num q.den : ℤ) : ℚ) := by
    exact_mod_cast congrArg (fun z : ℤ => (z : ℚ)) hEu.symm
  have hreq : q.num - Int.ediv q.num q.den * (q.den : ℤ) = Int.emod q.num q.den := by
    linear_combination -hEu
  have hq : q = ((Int.ediv q.num q.den : ℤ) : ℚ) +
      ((Int.emod q.num q.den : ℤ) : ℚ) / ((q.den : ℕ) : ℚ) := by
    conv_lhs => rw [← Rat.num_div_den q]
    rw [hnum]
    field_simp
    ring
  have hmodQ0 : (0 : ℚ) ≤ ((Int.emod q.num q.den : ℤ) : ℚ) := by exact_mod_cast hr0
  have hmodQlt : ((Int.emod q.num q.den : ℤ) : ℚ) < ((q.den : ℕ) : ℚ) := by
    exact_mod_cast hrlt
  have hfl_le : ((Int.ediv q.num q.den : ℤ) : ℚ) ≤ q := by
    conv_rhs => rw [hq]
    have : 0 ≤ ((Int.emod q.num q.den : ℤ) : ℚ) / ((q.den : ℕ) : ℚ) :=
      div_nonneg hmodQ0 (le_of_lt hdQ)
    linarith
  have hfl_lt : q < ((Int.ediv q.num q.den : ℤ) : ℚ) + 1 := by
    conv_lhs => rw [hq]
    have : ((Int.emod q.num q.den : ℤ) : ℚ) / ((q.den : ℕ) : ℚ) < 1 :=
      (div_lt_one hdQ).mpr hmodQlt
    linarith
  have haf : a ≤ Int.ediv q.num q.den := by
    have h1 : (a : ℚ) < ((Int.ediv q.num q.den : ℤ) : ℚ) + 1 := lt_of_le_of_lt ha hfl_lt
    have h2 : a < Int.ediv q.num q.den + 1 := by exact_mod_cast h1
    omega
  constructor
  · simp only [roundHE]
    split_ifs <;> omega
  · have hflb : Int.ediv q.num q.den ≤ b := by
      have : ((Int.ediv q.num q.den : ℤ) : ℚ) ≤ (b : ℚ) := le_trans hfl_le hb
      exact_mod_cast this
    simp only [roundHE]
    split_ifs with h1 h2 h3
    · exact hflb
    all_goals {
      rw [hreq] at h1
      have hge : (q.den : ℤ) ≤ 2 * Int.emod q.num q.den := by omega
      have hgeQ : ((q.den : ℕ) : ℚ) ≤ 2 * ((Int.emod q.num q.den : ℤ) : ℚ) := by
        exact_mod_cast hge
      have hhalf : ((Int.ediv q.num q.den : ℤ) : ℚ) + 1 / 2 ≤ q := by
        conv_rhs => rw [hq]
        have hdd : 1 / 2 ≤ ((Int.emod q.num q.den : ℤ) : ℚ) / ((q.den : ℕ) : ℚ) := by
          rw [le_div_iff hdQ]
          linarith
        linarith
      by_contra hbb
      push_neg at hbb
      have hble : b ≤ Int.ediv q.num q.den := by omega
      have : (b : ℚ) ≤ ((Int.ediv q.num q.den : ℤ) : ℚ) := by exact_mod_cast hble
      linarith
    }

/-- Helper: `round(x, 1)` respects the `[0, 100]` band. -/
theorem roundTenth_bounds {q : ℚ} (h0 : 0 ≤ q) (h1 : q ≤ 100) :
    0 ≤ roundTenth q ∧ roundTenth q ≤ 100 := by
  have hb := roundHE_bounds (q := q * 10) (a := 0) (b := 1000)
    (by push_cast; linarith) (by push_cast; linarith)
  obtain ⟨hl, hr⟩ := hb
  constructor
  · simp only [roundTenth]
    have : (0 : ℚ) ≤ ((roundHE (q * 10) : ℤ) : ℚ) := by exact_mod_cast hl
    linarith
  · simp only [roundTenth]
    have : ((roundHE (q * 10) : ℤ) : ℚ) ≤ 1000 := by exact_mod_cast hr
    linarith

/-- C2: for every job and profile (and every fitted similarity model, whose
cosine values lie in `[0, 1]` when vectorization succeeds) the composite score
returned by `score_job` lies between 0 and 100: each sub-score lies in
`[0, 100]` and the five weights sum to 1. -/
theorem c2_score_in_range :
    ∀ (s : Scorer) (j : Job),
      (∀ d v, s.sim d = .ok v → 0 ≤ v ∧ v ≤ 1) →
      0 ≤ scoreJob s j ∧ scoreJob s j ≤ 100 := by
  intro s j hsim
  obtain ⟨t0, t1⟩ := scoreTitleMatch_bounds s.profile j.title
  obtain ⟨l0, l1⟩ := scoreLocationMatch_bounds s.profile j.location
  obtain ⟨s0, s1⟩ := scoreSkillsOverlap_bounds s j.description hsim
  obtain ⟨e0, e1⟩ := scoreExperienceFit_bounds j.experience_required j.description
    s.profile.years_experience
  obtain ⟨d0, d1⟩ := scoreDonorMatch_bounds s.profile j.description j.organization
  simp only [scoreJob]
  refine roundTenth_bounds ?_ ?_ <;>
    simp only [wTitle, wLocation, wSkills, wExperience, wDonor] <;> linarith

theorem c2_score_in_range_witness :
    0 ≤ scoreJob scorerC1 jobC1 ∧ scoreJob scorerC1 jobC1 ≤ 100 :=
  c2_score_in_range scorerC1 jobC1 (by intro d v h; simp [scorerC1, simNever] at h)

/-! ## Ranking: sortedness and stability (claim C5) -/

/-- Helper: inserting stably into a list touches, at each score value, only
the insertion position of the new element: the new element goes in front of
the equal-keyed ones (the skipped prefix is strictly greater). -/
theorem filter_orderedInsert_key (x : Job) (q : ℚ) :
    ∀ l : List Job, (l.orderedInsert keyGE x).filter (fun j => decide (jobKey j = q)) =
      if jobKey x = q then x :: l.filter (fun j => decide (jobKey j = q))
      else l.filter (fun j => decide (jobKey j = q)) := by
  intro l
  induction l with
  | nil =>
    simp only [List.orderedInsert, List.filter_cons, List.filter_nil]
    split_ifs with h1 h2 <;> simp_all
  | cons y l ih =>
    simp only [List.orderedInsert]
    by_cases hxy : keyGE x y
    · rw [if_pos hxy]
      by_cases hx : jobKey x = q <;>
        simp [List.filter_cons, hx]
    · rw [if_neg hxy]
      by_cases hy : jobKey y = q
      · have hx : jobKey x ≠ q := by
          intro hx
          exact hxy (le_of_eq (hy.trans hx.symm))
        simp [List.filter_cons, hy, hx, ih]
      · by_cases hx : jobKey x = q <;>
          simp [List.filter_cons, hy, hx, ih]

/-- Helper: the stable sort leaves, for each score value, the sublist of jobs
with that score unchanged. -/
theorem sortByScoreDesc_filter_key (l : List Job) (q : ℚ) :
    (sortByScoreDesc l).filter (fun j => decide (jobKey j = q)) =
      l.filter (fun j => decide (jobKey j = q)) := by
  induction l with
  | nil => rfl
  | cons x l ih =>
    simp only [sortByScoreDesc, List.insertionSort] at *
    rw [filter_orderedInsert_key, ih, List.filter_cons]
    split_ifs <;> simp_all

/-- C5: `filterAndRank` returns the survivors in descending score order
(`keyGE`-sorted), as a permutation of the `filter_matches` output, and stably:
for every score value the survivors carrying it keep exactly the relative
order they had coming out of the filter, which itself preserves input
order. -/
theorem c5_rank_sorted_stable :
    ∀ jobs : List Job,
      (filterAndRank jobs).Sorted keyGE ∧
      List.Perm (filterAndRank jobs) (filterMatches none jobs) ∧
      ∀ q : ℚ, (filterAndRank jobs).filter (fun j => decide (jobKey j = q)) =
        (filterMatches none jobs).filter (fun j => decide (jobKey j = q)) :=
  fun jobs =>
    ⟨List.sorted_insertionSort keyGE _, List.perm_insertionSort keyGE _,
      fun q => sortByScoreDesc_filter_key _ q⟩

/-! ## Frame of scoring and filtering (claim C8) -/

/-- Helper: the salary step only ever rewrites the salary field. -/
theorem meetsSalaryRequirement_frame (j : Job) :
    jobEqExceptSalary (meetsSalaryRequirement j).2 j := by
  simp only [meetsSalaryRequirement]
  cases h : extractSalary j <;> simp [jobEqExceptSalary]

/-- Helper: each survivor of `filter_matches` comes from an input job that
passed the threshold and whose salary check succeeded. -/
theorem filterMatchesGo_mem {ms : ℚ} {l : List Job} {j' : Job}
    (h : j' ∈ filterMatchesGo ms l) :
    ∃ j, j ∈ l ∧ ¬(jobKey j < ms) ∧ meetsSalaryRequirement j = (true, j') := by
  induction l with
  | nil => simp [filterMatchesGo] at h
  | cons x l ih =>
    simp only [filterMatchesGo] at h
    by_cases hx : jobKey x < ms
    · rw [if_pos hx] at h
      obtain ⟨j, hj, h1, h2⟩ := ih h
      exact ⟨j, List.mem_cons_of_mem _ hj, h1, h2⟩
    · rw [if_neg hx] at h
      rcases hm : meetsSalaryRequirement x with ⟨b, x'⟩
      rw [hm] at h
      cases b with
      | false =>
        obtain ⟨j, hj, h1, h2⟩ := ih h
        exact ⟨j, List.mem_cons_of_mem _ hj, h1, h2⟩
      | true =>
        rcases List.mem_cons.mp h with rfl | hmem
        · exact ⟨x, List.mem_cons_self _ _, hx, hm⟩
        · obtain ⟨j, hj, h1, h2⟩ := ih hmem
          exact ⟨j, List.mem_cons_of_mem _ hj, h1, h2⟩

/-- C8: `score_jobs` is exactly the order-preserving map that sets `score`
and nothing else; the salary step rewrites only the `salary` field; and every
job returned by `filter_matches` is an input job with at most its salary
rewritten (the profile, a separate value, is untouched by the pure
embedding). -/
theorem c8_frame_effects :
    (∀ (s : Scorer) (l : List Job),
        scoreJobs s l = l.map (fun j => { j with score := some (scoreJob s j) })) ∧
    (∀ j : Job, jobEqExceptSalary (meetsSalaryRequirement j).2 j) ∧
    (∀ (ms : Option ℚ) (l : List Job) (j' : Job), j' ∈ filterMatches ms l →
        ∃ j, j ∈ l ∧ jobEqExceptSalary j' j) := by
  refine ⟨scoreJobs_eq_map, meetsSalaryRequirement_frame, ?_⟩
  intro ms l j' h
  obtain ⟨j, hj, -, hm⟩ := filterMatchesGo_mem h
  exact ⟨j, hj, by simpa [hm] using meetsSalaryRequirement_frame j⟩

theorem c8_frame_effects_witness :
    ∃ j, j ∈ [jobMonthly] ∧
      jobEqExceptSalary { jobMonthly with salary := some "~$5,000/month" } j :=
  c8_frame_effects.2.2 none [jobMonthly]
    { jobMonthly with salary := some "~$5,000/month" } (by decide)

/-! ## Idempotence of filtering (claim C6)

The heart of the claim is a round-trip: the salary step rewrites a survivor's
salary to `"~$X/month"`, and the second pass re-extracts that string.  The
lemmas below run the USD pattern symbolically over such a normalized prefix
followed by an arbitrary description. -/

/-- Helper: a greedy class star stops in front of a character outside the
class. -/
theorem starRun_skip {f : Char → Bool} {c : Char} (t : List Char)
    (k : List Char → Option α) (h : f c = false) :
    starRun f (c :: t) k = k (c :: t) := by
  simp [starRun, h]

/-- Helper: a greedy class star consumes a block of class characters up to a
stopping character, provided the continuation then succeeds. -/
theorem starRun_all {f : Char → Bool} {r : α} :
    ∀ (g : List Char) {t : List Char} {k : List Char → Option α},
      (∀ c ∈ g, f c = true) →
      (match t with | [] => True | c :: _ => f c = false) →
      k t = some r → starRun f (g ++ t) k = some r
  | [], t, k, _, hstop, hk => by
    cases t with
    | nil => simpa [starRun] using hk
    | cons c t' => rw [List.nil_append, starRun_skip t' k hstop, hk]
  | c :: g', t, k, hg, hstop, hk => by
    have hc : f c = true := hg c (List.mem_cons_self _ _)
    have ih := starRun_all g' (fun x hx => hg x (List.mem_cons_of_mem _ hx)) hstop hk
    simp [starRun, hc, ih]

/-- Helper: a literal consumes exactly itself. -/
theorem mrun_litL (t : List Char) :
    ∀ (s : List Char) (cap : Option (List Char))
      (k : List Char → Option (List Char) → Option α),
      mrun (litL s) (s ++ t) cap k = k t cap
  | [], _, _ => rfl
  | c :: s', cap, k => by
    simp [litL, mrun, mrun_litL t s' cap k]

/-- Helper: a digit-or-comma character is not whitespace. -/
theorem dc_not_ws {c : Char} (h : isDigitCommaC c = true) : isWsC c = false := by
  simp only [isDigitCommaC, isDigitC, Bool.or_eq_true, beq_iff_eq, or_assoc] at h
  rcases h with h | h | h | h | h | h | h | h | h | h | h <;> subst h <;> decide

/-- Helper: a digit-or-comma character is unchanged by lowercasing. -/
theorem dc_toLower {c : Char} (h : isDigitCommaC c = true) : Char.toLower c = c := by
  simp only [isDigitCommaC, isDigitC, Bool.or_eq_true, beq_iff_eq, or_assoc] at h
  rcases h with h | h | h | h | h | h | h | h | h | h | h <;> subst h <;> decide

/-- Helper: a digit character is not a comma. -/
theorem digit_ne_comma {c : Char} (h : isDigitC c = true) : c ≠ ',' := by
  intro he
  rw [he] at h
  exact absurd h (by decide)

/-- Helper: mapping a function which fixes every element is the identity. -/
theorem map_id_of_mem {f : Char → Char} :
    ∀ l : List Char, (∀ c ∈ l, f c = c) → l.map f = l
  | [], _ => rfl
  | c :: t, h => by
    rw [List.map_cons, h c (List.mem_cons_self _ _),
      map_id_of_mem t (fun x hx => h x (List.mem_cons_of_mem _ hx))]

/-- Helper: `digitChar` of a digit value is read back by `digitVal`. -/
theorem digitVal_digitChar {d : ℕ} (h : d < 10) : digitVal (digitChar d) = d := by
  interval_cases d <;> decide

/-- Helper: `digitChar` always produces a digit character. -/
theorem isDigitC_digitChar (d : ℕ) : isDigitC (digitChar d) = true := by
  rcases d with _ | _ | _ | _ | _ | _ | _ | _ | _ | d <;> rfl

/-- Helper: with sufficient fuel the digit expansion is nonempty and all its
characters are digits. -/
theorem natDigitsAux_facts :
    ∀ (fuel n : ℕ), n < fuel →
      natDigitsAux fuel n ≠ [] ∧ ∀ c ∈ natDigitsAux fuel n, isDigitC c = true := by
  intro fuel
  induction fuel with
  | zero => intro n h; omega
  | succ fuel ih =>
    intro n h
    by_cases h10 : n < 10
    · simp only [natDigitsAux, if_pos h10]
      refine ⟨by simp, ?_⟩
      intro c hc
      rcases List.mem_singleton.mp hc with rfl
      exact isDigitC_digitChar n
    · have hrec : n / 10 < fuel := by omega
      obtain ⟨hne, hall⟩ := ih (n / 10) hrec
      simp only [natDigitsAux, if_neg h10]
      constructor
      · simp
      · intro c hc
        rcases List.mem_append.mp hc with hc | hc
        · exact hall c hc
        · rcases List.mem_singleton.mp hc with rfl
          exact isDigitC_digitChar _

/-- Helper: folding the decimal digits back with sufficient fuel recovers the
number (with the accumulator scaled by the written width). -/
theorem parseFold_natDigitsAux :
    ∀ (fuel n : ℕ), n < fuel → ∀ a : ℕ,
      List.foldl (fun a c => a * 10 + digitVal c) a (natDigitsAux fuel n) =
        a * 10 ^ (natDigitsAux fuel n).length + n := by
  intro fuel
  induction fuel with
  | zero => intro n h; omega
  | succ fuel ih =>
    intro n h a
    by_cases h10 : n < 10
    · simp only [natDigitsAux, if_pos h10, List.foldl_cons, List.foldl_nil,
        List.length_singleton, pow_one]
      rw [digitVal_digitChar h10]
    · have hrec : n / 10 < fuel := by omega
      simp only [natDigitsAux, if_neg h10, List.foldl_append, List.foldl_cons,
        List.foldl_nil, List.length_append, List.length_singleton]
      rw [ih (n / 10) hrec a, digitVal_digitChar (Nat.mod_lt n (by omega)), pow_succ]
      have hX : a * (10 ^ (natDigitsAux fuel (n / 10)).length * 10) =
          a * 10 ^ (natDigitsAux fuel (n / 10)).length * 10 := by ring
      rw [hX]
      omega

/-- Helper: parsing the digit string of `n` gives back `n`. -/
theorem parseNatL_natDigits (n : ℕ) : parseNatL (natDigits n) = n := by
  have := parseFold_natDigitsAux (n + 1) n (by omega) 0
  simpa [parseNatL, natDigits] using this

theorem natDigits_ne_nil (n : ℕ) : natDigits n ≠ [] :=
  (natDigitsAux_facts (n + 1) n (by omega)).1

theorem natDigits_all_digits (n : ℕ) : ∀ c ∈ natDigits n, isDigitC c = true :=
  (natDigitsAux_facts (n + 1) n (by omega)).2

/-- Helper: comma insertion only adds commas, so stripping commas undoes it. -/
theorem stripCommas_group3R : ∀ l : List Char, stripCommas (group3R l) = stripCommas l
  | [] => rfl
  | [d] => rfl
  | [d₁, d₂] => rfl
  | [d₁, d₂, d₃] => rfl
  | d₁ :: d₂ :: d₃ :: d₄ :: rest => by
    have ih := stripCommas_group3R (d₄ :: rest)
    simp only [group3R, stripCommas, List.filter_cons] at *
    split_ifs <;> simp_all

/-- Helper: every character produced by comma insertion is a source character
or a comma. -/
theorem mem_group3R : ∀ (l : List Char) (c : Char), c ∈ group3R l → c ∈ l ∨ c = ','
  | [], c, h => by simp [group3R] at h
  | [d], c, h => by simpa [group3R] using Or.inl h
  | [d₁, d₂], c, h => by simpa [group3R] using Or.inl h
  | [d₁, d₂, d₃], c, h => by simpa [group3R] using Or.inl h
  | d₁ :: d₂ :: d₃ :: d₄ :: rest, c, h => by
    simp only [group3R, List.mem_cons] at h
    rcases h with rfl | rfl | rfl | rfl | h
    · simp
    · simp
    · simp
    · exact Or.inr rfl
    · rcases mem_group3R (d₄ :: rest) c h with hm | hm
      · exact Or.inl (by simp [List.mem_cons] at hm ⊢; tauto)
      · exact Or.inr hm

/-- Helper: comma insertion never empties a list. -/
theorem group3R_ne_nil : ∀ l : List Char, l ≠ [] → group3R l ≠ []
  | [], h => absurd rfl h
  | [d], _ => by simp [group3R]
  | [d₁, d₂], _ => by simp [group3R]
  | [d₁, d₂, d₃], _ => by simp [group3R]
  | d₁ :: d₂ :: d₃ :: d₄ :: rest, _ => by simp [group3R]

theorem stripCommas_commaDigits (n : ℕ) : stripCommas (commaDigits n) = natDigits n := by
  have hrev : ∀ l : List Char, stripCommas l.reverse = (stripCommas l).reverse := by
    intro l
    simp [stripCommas, List.filter_reverse]
  rw [commaDigits, hrev, stripCommas_group3R, hrev, List.reverse_reverse]
  apply List.filter_eq_self.mpr
  intro c hc
  simpa using digit_ne_comma (natDigits_all_digits n c hc)

theorem commaDigits_ne_nil (n : ℕ) : commaDigits n ≠ [] := by
  simp only [commaDigits]
  intro h
  have h2 : group3R (natDigits n).reverse = [] := by
    have := congrArg List.reverse h
    simpa using this
  exact group3R_ne_nil _ (by simpa using natDigits_ne_nil n) h2

theorem commaDigits_all_dc (n : ℕ) : ∀ c ∈ commaDigits n, isDigitCommaC c = true := by
  intro c hc
  rw [commaDigits, List.mem_reverse] at hc
  rcases mem_group3R _ c hc with hm | hm
  · rw [List.mem_reverse] at hm
    have := natDigits_all_digits n c hm
    simp [isDigitCommaC, this]
  · subst hm
    decide



theorem starRun_stop {f : Char → Bool} :
    ∀ (g : List Char) {t : List Char} {k : List Char → Option α},
      (∀ c ∈ g, f c = true) →
      (match t with | [] => True | c :: _ => f c = false) →
      (k t).isSome = true → starRun f (g ++ t) k = k t
  | [], t, k, _, hstop, _ => by
    cases t with
    | nil => simp [starRun]
    | cons c t' => rw [List.nil_append, starRun_skip t' k hstop]
  | c :: g', t, k, hg, hstop, hk => by
    have hc : f c = true := hg c (List.mem_cons_self _ _)
    have ih := starRun_stop g' (fun x hx => hg x (List.mem_cons_of_mem _ hx)) hstop hk
    obtain ⟨r, hr⟩ := Option.isSome_iff_exists.mp hk
    simp [starRun, hc, ih, hr]

set_option maxHeartbeats 1000000 in
theorem matchAt_pat0_norm (c : Char) (g' rest : List Char)
    (hc : isDigitCommaC c = true) (hg : ∀ x ∈ g', isDigitCommaC x = true) :
    matchAt pat0 ('$' :: c :: (g' ++ ('/' :: 'm' :: 'o' :: 'n' :: 't' :: 'h' :: rest))) =
      some (c :: g', rest) := by
  have hcw : isWsC c = false := dc_not_ws hc
  simp only [matchAt, pat0, usdPre, amountGroup, monthOpt, wsS, litL, mrun, List.cons_append,
    starRun, hcw, hc, Bool.false_eq_true, if_false, if_true, beq_self_eq_true]
  rw [starRun_stop g' (fun x hx => hg x hx) (by show isDigitCommaC '/' = false; decide)
    (by simp [starRun, isWsC, isDigitC, isDigitCommaC, List.length_cons, List.length_append,
      Nat.add_sub_cancel, List.take_succ_cons, List.take_left])]
  simp only [starRun, isWsC, isDigitC, isDigitCommaC, List.length_cons, List.length_append]
  have hlen : g'.length + (rest.length + 1 + 1 + 1 + 1 + 1 + 1) - (rest.length + 5) =
      g'.length + 1 := by omega
  simp [starRun, isWsC, isDigitC, isDigitCommaC, List.length_cons, List.length_append,
    hlen, List.take_succ_cons, List.take_left]

theorem matchAt_pat0_tilde (t : List Char) : matchAt pat0 ('~' :: t) = none := by
  simp [matchAt, pat0, usdPre, litL, mrun]

theorem findAllAux_step_none {p : RE} {c : Char} {t : List Char} (f : Nat)
    (h : matchAt p (c :: t) = none) :
    findAllAux p (f + 1) (c :: t) = findAllAux p f t := by
  simp [findAllAux, h]

theorem findAllAux_step_some {p : RE} {s cap r : List Char} (f : Nat)
    (h : matchAt p s = some (cap, r)) (hlt : r.length < s.length) :
    findAllAux p (f + 1) s = cap :: findAllAux p f r := by
  simp [findAllAux, h, hlt]

theorem findAll_pat0_norm (c : Char) (g' rest : List Char)
    (hc : isDigitCommaC c = true) (hg : ∀ x ∈ g', isDigitCommaC x = true) :
    findAll pat0 ('~' :: '$' :: c :: (g' ++ ('/' :: 'm' :: 'o' :: 'n' :: 't' :: 'h' :: rest))) =
      (c :: g') ::
        findAllAux pat0
          ('$' :: c :: (g' ++ ('/' :: 'm' :: 'o' :: 'n' :: 't' :: 'h' :: rest))).length rest := by
  rw [findAll]
  have hshape :
      ('~' :: '$' :: c :: (g' ++ ('/' :: 'm' :: 'o' :: 'n' :: 't' :: 'h' :: rest))).length =
        ('$' :: c :: (g' ++ ('/' :: 'm' :: 'o' :: 'n' :: 't' :: 'h' :: rest))).length + 1 := by
    simp
  rw [hshape,
    findAllAux_step_none _ (matchAt_pat0_tilde ('$' :: c :: (g' ++ ('/' :: 'm' :: 'o' :: 'n' :: 't' :: 'h' :: rest)))),
    findAllAux_step_some _ (matchAt_pat0_norm c g' rest hc hg) (by simp; omega)]



theorem takeWhile_all {p : Char → Bool} :
    ∀ l : List Char, (∀ c ∈ l, p c = true) → l.takeWhile p = l ∧ l.dropWhile p = []
  | [], _ => ⟨rfl, rfl⟩
  | c :: t, h => by
    have hc : p c = true := h c (List.mem_cons_self _ _)
    have ih := takeWhile_all t (fun x hx => h x (List.mem_cons_of_mem _ hx))
    simp [List.takeWhile_cons, List.dropWhile_cons, hc, ih.1, ih.2]

theorem parseAmount_commaDigits (n : ℕ) : parseAmount (commaDigits n) = some (n : ℚ) := by
  have hne := natDigits_ne_nil n
  have hall := natDigits_all_digits n
  have htw := takeWhile_all (natDigits n) hall
  have hemp : (natDigits n).isEmpty = false := by
    cases h : natDigits n with
    | nil => exact absurd h hne
    | cons a t => rfl
  simp only [parseAmount, stripCommas_commaDigits, hemp, htw.1, htw.2,
    Bool.false_eq_true, if_false, parseNatL_natDigits]

theorem processMatch_commaDigits (n : ℕ) (h5 : 500 ≤ n) (h20 : n ≤ 20000) :
    processMatch false false (commaDigits n) = some (n : ℚ) := by
  have hge : (500 : ℚ) ≤ (n : ℚ) := by exact_mod_cast h5
  have hle : ((n : ℚ)) ≤ 20000 := by exact_mod_cast h20
  have h50 : ((n : ℚ)) ≤ 50000 := by linarith
  have hnotgt : ¬((n : ℚ) > 20000) := not_lt.mpr hle
  simp [processMatch, parseAmount_commaDigits, adjustAmount, hnotgt, hge, h50]

theorem extractSalaryL_norm (n : ℕ) (rest : List Char) (h5 : 500 ≤ n) (h20 : n ≤ 20000) :
    extractSalaryL
        ('~' :: '$' :: (commaDigits n ++ ('/' :: 'm' :: 'o' :: 'n' :: 't' :: 'h' :: rest))) =
      some (n : ℚ) := by
  obtain ⟨c, g', hcd⟩ := List.exists_cons_of_ne_nil (commaDigits_ne_nil n)
  have hdc := commaDigits_all_dc n
  have hc : isDigitCommaC c = true := hdc c (by rw [hcd]; exact List.mem_cons_self _ _)
  have hg : ∀ x ∈ g', isDigitCommaC x = true := fun x hx =>
    hdc x (by rw [hcd]; exact List.mem_cons_of_mem _ hx)
  rw [hcd]
  simp only [List.cons_append]
  exact extractSalaryL_pat0 (findAll_pat0_norm c g' rest hc hg)
    (by rw [← hcd]; exact processMatch_commaDigits n h5 h20)

theorem jobSalaryText_normalized (j : Job) (v : ℚ) :
    jobSalaryText { j with salary := some (normalizeSalary v) } =
      '~' :: '$' :: (commaDigits (roundHE v).toNat ++
        ('/' :: 'm' :: 'o' :: 'n' :: 't' :: 'h' :: (' ' :: toLowerL j.description.toList))) := by
  have hcd : toLowerL (commaDigits (roundHE v).toNat) = commaDigits (roundHE v).toNat :=
    map_id_of_mem _ (fun c hc => dc_toLower (commaDigits_all_dc _ c hc))
  simp only [jobSalaryText, normalizeSalary, Option.getD_some, toLowerL]
  simp only [String.toList, String.data_append]
  have hcd' : List.map Char.toLower (commaDigits (roundHE v).toNat) =
      commaDigits (roundHE v).toNat := hcd
  have e1 : Char.toLower '~' = '~' := rfl
  have e2 : Char.toLower '$' = '$' := rfl
  have e3 : Char.toLower '/' = '/' := rfl
  have e4 : Char.toLower 'm' = 'm' := rfl
  have e5 : Char.toLower 'o' = 'o' := rfl
  have e6 : Char.toLower 'n' = 'n' := rfl
  have e7 : Char.toLower 't' = 't' := rfl
  have e8 : Char.toLower 'h' = 'h' := rfl
  have e9 : Char.toLower ' ' = ' ' := rfl
  simp only [List.map_append, List.map_cons, List.map_nil, List.nil_append, List.append_nil,
    List.cons_append, List.append_assoc, hcd', e1, e2, e3, e4, e5, e6, e7, e8, e9]




theorem meetsSalary_normalized (j : Job) (v : ℚ)
    (h3 : MIN_SALARY_USD ≤ v) (h20 : v ≤ 20000) :
    meetsSalaryRequirement { j with salary := some (normalizeSalary v) } =
      (true, { j with salary := some (normalizeSalary v) }) := by
  have h3' : ((3000 : ℤ) : ℚ) ≤ v := by
    rw [show ((3000 : ℤ) : ℚ) = (3000 : ℚ) by norm_num]
    exact h3
  have h20' : v ≤ ((20000 : ℤ) : ℚ) := by
    rw [show ((20000 : ℤ) : ℚ) = (20000 : ℚ) by norm_num]
    exact h20
  obtain ⟨hge, hle⟩ := roundHE_bounds h3' h20'
  have hnn : 0 ≤ roundHE v := by omega
  have hcast : ((roundHE v).toNat : ℤ) = roundHE v := Int.toNat_of_nonneg hnn
  have h5 : 500 ≤ (roundHE v).toNat := by omega
  have h20n : (roundHE v).toNat ≤ 20000 := by omega
  have hext : extractSalary { j with salary := some (normalizeSalary v) } =
      some (((roundHE v).toNat : ℕ) : ℚ) := by
    rw [extractSalary, jobSalaryText_normalized]
    exact extractSalaryL_norm (roundHE v).toNat _ h5 h20n
  have hkey : normalizeSalary ((((roundHE v).toNat : ℕ)) : ℚ) = normalizeSalary v := by
    simp only [normalizeSalary]
    rw [show ((((roundHE v).toNat : ℕ)) : ℚ) = (((roundHE v).toNat : ℤ) : ℚ) from by push_cast; ring,
      roundHE_intCast, Int.toNat_natCast]
  have hdec : decide (MIN_SALARY_USD ≤ ((((roundHE v).toNat : ℕ)) : ℚ)) = true := by
    apply decide_eq_true
    show (3000 : ℚ) ≤ _
    have : (3000 : ℤ) ≤ ((roundHE v).toNat : ℤ) := by omega
    exact_mod_cast this
  simp only [meetsSalaryRequirement, hext, hkey, hdec]

theorem filterMatchesGo_self {ms : ℚ} :
    ∀ l : List Job, (∀ j ∈ l, ¬(jobKey j < ms) ∧ meetsSalaryRequirement j = (true, j)) →
      filterMatchesGo ms l = l
  | [], _ => rfl
  | j :: l, h => by
    obtain ⟨h1, h2⟩ := h j (List.mem_cons_self _ _)
    have ih := filterMatchesGo_self l (fun x hx => h x (List.mem_cons_of_mem _ hx))
    simp [filterMatchesGo, if_neg h1, h2, ih]

set_option maxHeartbeats 1000000 in
/-- C6 (amended): `filterAndRank` is idempotent on scored, otherwise
unchanged inputs whose extractable salaries are at most 20000 — the
normalized `"~$X/month"` then re-extracts to the same amount, every survivor
passes the score and salary checks unchanged a second time, and the already
sorted output is a fixed point of the stable sort. -/
theorem c6_idempotent_amended :
    ∀ jobs : List Job, (∀ j ∈ jobs, salaryCapOK j = true) →
      filterAndRank (filterAndRank jobs) = filterAndRank jobs := by
  intro jobs H
  have hfix : ∀ j' ∈ filterAndRank jobs,
      ¬(jobKey j' < SCORE_THRESHOLD_LOW) ∧ meetsSalaryRequirement j' = (true, j') := by
    intro j' hj'
    have hjM : j' ∈ filterMatchesGo SCORE_THRESHOLD_LOW jobs := by
      simpa [filterAndRank, sortByScoreDesc, filterMatches] using hj'
    obtain ⟨j, hj, hsc, hm⟩ := filterMatchesGo_mem hjM
    cases hext : extractSalary j with
    | none =>
      have hmj : meetsSalaryRequirement j = (true, j) := by
        simp [meetsSalaryRequirement, hext, EXCLUDE_NO_SALARY]
      rw [hmj] at hm
      obtain ⟨-, rfl⟩ := Prod.mk.injEq .. |>.mp hm
      exact ⟨hsc, hmj⟩
    | some v =>
      have hm' : (decide (MIN_SALARY_USD ≤ v),
          { j with salary := some (normalizeSalary v) }) = (true, j') := by
        rw [← hm]
        simp [meetsSalaryRequirement, hext]
      obtain ⟨hdec, hj'eq⟩ := Prod.mk.injEq .. |>.mp hm'
      have h3 : MIN_SALARY_USD ≤ v := of_decide_eq_true hdec
      have h20 : v ≤ 20000 := by
        have hcap := H j hj
        simp only [salaryCapOK, hext] at hcap
        exact of_decide_eq_true hcap
      constructor
      · rw [← hj'eq]
        simpa [jobKey] using hsc
      · rw [← hj'eq]
        exact meetsSalary_normalized j v h3 h20
  have h1 : filterMatchesGo SCORE_THRESHOLD_LOW (filterAndRank jobs) = filterAndRank jobs :=
    filterMatchesGo_self _ hfix
  show sortByScoreDesc (filterMatchesGo SCORE_THRESHOLD_LOW (filterAndRank jobs)) =
    filterAndRank jobs
  rw [h1]
  exact List.Sorted.insertionSort_eq (List.sorted_insertionSort keyGE _)

theorem c6_idempotent_amended_witness :
    filterAndRank (filterAndRank [jobMonthly]) = filterAndRank [jobMonthly] :=
  c6_idempotent_amended [jobMonthly] (by decide)

theorem c6_big_first_pass : filterAndRank [jobBigSalary] = [jobBigRewritten] := by
  have hf : findAll pat0 (jobSalaryText jobBigSalary) =
      [['3', '0', '0', ',', '0', '0', '0']] := by decide
  have hpa : parseAmount ['3', '0', '0', ',', '0', '0', '0'] = some 300000 := by decide
  have hp : processMatch false false ['3', '0', '0', ',', '0', '0', '0'] = some 25000 := by
    simp only [processMatch, hpa]
    norm_num [adjustAmount]
  have hext : extractSalary jobBigSalary = some 25000 := extractSalaryL_pat0 hf hp
  have hmeets : meetsSalaryRequirement jobBigSalary = (true, jobBigRewritten) := by
    simp only [meetsSalaryRequirement, hext]
    decide
  have hfm : filterMatchesGo SCORE_THRESHOLD_LOW [jobBigSalary] = [jobBigRewritten] := by
    simp only [filterMatchesGo, hmeets]
    rw [if_neg (by decide : ¬(jobKey jobBigSalary < SCORE_THRESHOLD_LOW))]
  show sortByScoreDesc (filterMatchesGo SCORE_THRESHOLD_LOW [jobBigSalary]) = _
  rw [hfm]
  rfl

theorem c6_big_second_pass : filterAndRank [jobBigRewritten] = [] := by
  have hf : findAll pat0 (jobSalaryText jobBigRewritten) =
      [['2', '5', ',', '0', '0', '0']] := by decide
  have hpa : parseAmount ['2', '5', ',', '0', '0', '0'] = some 25000 := by decide
  have hp : processMatch false false ['2', '5', ',', '0', '0', '0'] =
      some (25000 / 12 : ℚ) := by
    simp only [processMatch, hpa]
    norm_num [adjustAmount]
  have hext : extractSalary jobBigRewritten = some (25000 / 12 : ℚ) :=
    extractSalaryL_pat0 hf hp
  rcases hmp : meetsSalaryRequirement jobBigRewritten with ⟨b, x⟩
  have hb : b = false := by
    have h1 : (meetsSalaryRequirement jobBigRewritten).1 = false := by
      simp only [meetsSalaryRequirement, hext]
      norm_num [MIN_SALARY_USD]
    rw [hmp] at h1
    exact h1
  subst hb
  have hfm : filterMatchesGo SCORE_THRESHOLD_LOW [jobBigRewritten] = [] := by
    simp only [filterMatchesGo, hmp]
    rw [if_neg (by decide : ¬(jobKey jobBigRewritten < SCORE_THRESHOLD_LOW))]
  show sortByScoreDesc (filterMatchesGo SCORE_THRESHOLD_LOW [jobBigRewritten]) = []
  rw [hfm]
  rfl

/-- C6 fails on the code as stated: a job with salary `"$300,000 per year"`
(score 80) survives the first pass with salary rewritten to
`"~$25,000/month"`; the second pass re-extracts 25000, the `> 20000` annual
heuristic divides it to about 2083 < 3000, and the job is dropped, so a
second application changes the output. -/
theorem c6_idempotence_counterexample :
    filterAndRank (filterAndRank [jobBigSalary]) ≠ filterAndRank [jobBigSalary] := by
  rw [c6_big_first_pass, c6_big_second_pass]
  simp

end JobHunter
